import Mathlib

/-!
Shallow embedding of the toolpath-to-mesh reconstruction core of
WBrandes/3DErrorDetection (src/utils.py and src/watchdog.py), together with
theorems settling the specification claims about it.

Conventions of the embedding:
* Python floats are modelled as exact rationals (ℚ); `np.sqrt` is kept
  abstract as a `ℚ → ℚ` parameter wherever the source takes a square root
  (`ratSqrt` below is a concrete stand-in used for closed evaluations).
* `rotate_vector(v, ±π/2)` is modelled with the exact values cos(±π/2) = 0
  and sin(±π/2) = ±1.
* A text line of the instruction stream is a `List Char` (`Line`), without
  its trailing newline; Python `str.split`, slicing and `in` are modelled by
  `strSplit`, `List.take` and `List.contains`.
* Python `float(...)` on an operand is `parseFloat`, covering the standard
  sign/digits/dot/exponent decimal grammar; a failed parse models the
  ValueError that aborts `parse_gcode_file`, so the parse runs in `Except`.
-/

/-- A point `[x, y, z]` of the source (a Python list of three floats). -/
structure Point3 where
  x : ℚ
  y : ℚ
  z : ℚ
deriving DecidableEq, Repr

/-- One continuous extrusion move: a list of points, as in the source. -/
abbrev Polyline := List Point3

/-- One layer: the list of polylines committed at one extruded z. -/
abbrev Layer := List Polyline

/-- Default point used to totalise the source's (always in-range) list indexing. -/
def pt0 : Point3 := ⟨0, 0, 0⟩

/-- rotate_vector from src/utils.py rotates a 2-vector by a given angle; the
source only calls it at ±π/2, so the angle is given here by its exact cosine
and sine (cos(±π/2) = 0, sin(±π/2) = ±1). -/
def rotate_vector (v : ℚ × ℚ) (c s : ℚ) : ℚ × ℚ :=
  (v.1 * c - v.2 * s, v.1 * s + v.2 * c)

/-- scale_vector from src/utils.py scales a vector to a given length;
`sq` models `np.sqrt`. -/
def scale_vector (sq : ℚ → ℚ) (v : ℚ × ℚ) (len : ℚ) : ℚ × ℚ :=
  (len * (v.1 / sq (v.1 ^ 2 + v.2 ^ 2)), len * (v.2 / sq (v.1 ^ 2 + v.2 ^ 2)))

/-- add_vector_bi from src/utils.py: point + vector and point - vector
(the z coordinate is carried through untouched). -/
def add_vector_bi (v : ℚ × ℚ) (p : Point3) : Point3 × Point3 :=
  (⟨p.x + v.1, p.y + v.2, p.z⟩, ⟨p.x - v.1, p.y - v.2, p.z⟩)

/-- Difference vector into an interior point of get_corner_normals:
`last_dif = current_point - last_point` (componentwise in x and y). -/
def corner_last_dif (lastp curp : Point3) : ℚ × ℚ :=
  (curp.x - lastp.x, curp.y - lastp.y)

/-- Difference vector out of an interior point of get_corner_normals:
`next_dif = current_point - next_point` (componentwise in x and y). -/
def corner_next_dif (curp nextp : Point3) : ℚ × ℚ :=
  (curp.x - nextp.x, curp.y - nextp.y)

/-- Rotated normal of the segment entering an interior point:
`last_normal = rotate_vector(last_dif, np.pi/2)` in get_corner_normals. -/
def corner_last_normal (lastp curp : Point3) : ℚ × ℚ :=
  rotate_vector (corner_last_dif lastp curp) 0 1

/-- Rotated normal of the segment leaving an interior point:
`next_normal = rotate_vector(next_dif, -np.pi/2)` in get_corner_normals. -/
def corner_next_normal (curp nextp : Point3) : ℚ × ℚ :=
  rotate_vector (corner_next_dif curp nextp) 0 (-1)

/-- Exact-equality degeneracy test of get_corner_normals:
`last_normal[0] == next_normal[0]*-1 and last_normal[1] == next_normal[1]*-1`. -/
def degeneracy_branch (lastp curp nextp : Point3) : Prop :=
  (corner_last_normal lastp curp).1 = (corner_next_normal curp nextp).1 * (-1) ∧
  (corner_last_normal lastp curp).2 = (corner_next_normal curp nextp).2 * (-1)

instance (a b c : Point3) : Decidable (degeneracy_branch a b c) := by
  unfold degeneracy_branch; exact inferInstance

/-- Combined (still unnormalised) interior normal of get_corner_normals:
one rotated normal on the degeneracy branch, their sum otherwise. -/
def interior_raw_normal (a b c : Point3) : ℚ × ℚ :=
  if degeneracy_branch a b c then corner_last_normal a b
  else ((corner_last_normal a b).1 + (corner_next_normal b c).1,
        (corner_last_normal a b).2 + (corner_next_normal b c).2)

/-- Radicand of the magnitude the interior normal is divided by
(`magnitude = np.sqrt(normal[0]**2 + normal[1]**2)`): the division in
get_corner_normals divides by zero exactly when this is zero, since
np.sqrt of a nonnegative float is zero iff its argument is. -/
def interior_mag_sq (a b c : Point3) : ℚ :=
  (interior_raw_normal a b c).1 ^ 2 + (interior_raw_normal a b c).2 ^ 2

/-- Scaled interior normal of get_corner_normals:
`[(normal[0] / magnitude) * width, (normal[1] / magnitude) * width]`. -/
def interior_normal (sq : ℚ → ℚ) (width : ℚ) (a b c : Point3) : ℚ × ℚ :=
  ((interior_raw_normal a b c).1 / sq (interior_mag_sq a b c) * width,
   (interior_raw_normal a b c).2 / sq (interior_mag_sq a b c) * width)

/-- Interior loop of get_corner_normals: `for i in range(1, len(line) - 1)`
(that is, the `line.length - 2` indices 1, 2, …, line.length - 2), appending
the two offset corner points of line[i] for each i. -/
def interior_corners (sq : ℚ → ℚ) (width : ℚ) (line : List Point3) :
    List Point3 :=
  (List.range' 1 (line.length - 2)).flatMap (fun i =>
    [(add_vector_bi
        (interior_normal sq width (line.getD (i - 1) pt0) (line.getD i pt0)
          (line.getD (i + 1) pt0))
        (line.getD i pt0)).1,
     (add_vector_bi
        (interior_normal sq width (line.getD (i - 1) pt0) (line.getD i pt0)
          (line.getD (i + 1) pt0))
        (line.getD i pt0)).2])

/-- get_corner_normals from src/utils.py: the boundary points of the
width-`line_width` ribbon around a polyline (an empty list when the input
has fewer than 2 points). -/
def get_corner_normals (sq : ℚ → ℚ) (line : List Point3) (line_width : ℚ) :
    List Point3 :=
  if 1 < line.length then
    (add_vector_bi
      (scale_vector sq
        (rotate_vector ((line.getD 1 pt0).x - (line.getD 0 pt0).x,
          (line.getD 1 pt0).y - (line.getD 0 pt0).y) 0 1) line_width)
      (line.getD 0 pt0)).1 ::
    (add_vector_bi
      (scale_vector sq
        (rotate_vector ((line.getD 1 pt0).x - (line.getD 0 pt0).x,
          (line.getD 1 pt0).y - (line.getD 0 pt0).y) 0 1) line_width)
      (line.getD 0 pt0)).2 ::
    (interior_corners sq line_width line ++
      [(add_vector_bi
          (scale_vector sq
            (rotate_vector
              ((line.getD (line.length - 1) pt0).x - (line.getD (line.length - 2) pt0).x,
               (line.getD (line.length - 1) pt0).y - (line.getD (line.length - 2) pt0).y) 0 1)
            line_width)
          (line.getD (line.length - 1) pt0)).1,
       (add_vector_bi
          (scale_vector sq
            (rotate_vector
              ((line.getD (line.length - 1) pt0).x - (line.getD (line.length - 2) pt0).x,
               (line.getD (line.length - 1) pt0).y - (line.getD (line.length - 2) pt0).y) 0 1)
            line_width)
          (line.getD (line.length - 1) pt0)).2])
  else []

/-- The normal get_corner_normals uses at input index i: the endpoint rule
at the two ends and the interior (miter) rule in between, read off the
same source formulas. -/
def corner_normal (sq : ℚ → ℚ) (width : ℚ) (line : List Point3) (i : ℕ) : ℚ × ℚ :=
  if i = 0 then
    scale_vector sq
      (rotate_vector ((line.getD 1 pt0).x - (line.getD 0 pt0).x,
        (line.getD 1 pt0).y - (line.getD 0 pt0).y) 0 1) width
  else if i = line.length - 1 then
    scale_vector sq
      (rotate_vector
        ((line.getD (line.length - 1) pt0).x - (line.getD (line.length - 2) pt0).x,
         (line.getD (line.length - 1) pt0).y - (line.getD (line.length - 2) pt0).y) 0 1) width
  else
    interior_normal sq width (line.getD (i - 1) pt0) (line.getD i pt0)
      (line.getD (i + 1) pt0)

/-- Exact natural square root by bounded search (kernel-computable). -/
def natSqrtExact (n : ℕ) : Option ℕ :=
  (List.range (n + 1)).find? (fun k => k * k = n)

/-- Concrete stand-in model of np.sqrt used for closed evaluations: the
exact square root on perfect squares of nonnegative rationals and 0
elsewhere; in particular ratSqrt 0 = 0 and ratSqrt 1 = 1, and
ratSqrt q = 0 iff q = 0 on the inputs the closed theorems use. -/
def ratSqrt (q : ℚ) : ℚ :=
  if 0 ≤ q.num then
    match natSqrtExact q.num.toNat, natSqrtExact q.den with
    | some a, some b => (a : ℚ) / (b : ℚ)
    | _, _ => 0
  else 0

/-- A triangle of the generated mesh: three indices into the vertex list. -/
abbrev Tri := ℕ × ℕ × ℕ

/-- Side-wall loop of build_mesh_from_points (`i = 0; while i < point_count - 2:
…; i += 2`): the loop visits exactly the even indices 0, 2, …, below
`pc - 2`, which are the `(pc - 1) / 2` values of `List.range' 0 ((pc - 1) / 2) 2`;
each visit appends the bottom, top, right and left wall triangles of one
boundary pair, in source order. -/
def mesh_wall_tris (pc : ℕ) : List Tri :=
  (List.range' 0 ((pc - 1) / 2) 2).flatMap (fun i =>
    [(i, i + 1, i + 3), (i, i + 3, i + 2),
     (pc + i, pc + i + 3, pc + i + 1), (pc + i, pc + i + 2, pc + i + 3),
     (i, i + 2, i + pc), (i + 2, i + 2 + pc, i + pc),
     (i + 1, i + 1 + pc, i + 3), (i + 3, i + 1 + pc, i + 3 + pc)])

/-- build_mesh_from_points from src/utils.py: extrudes the 2D boundary point
list upward by line_height, returning the doubled vertex list (input points,
then the input points raised by line_height in z) and the triangle index
list (front cap, back cap, then the wall loop). -/
def build_mesh_from_points (points : List Point3) (line_height : ℚ) :
    List Point3 × List Tri :=
  (points ++ points.map (fun p => ⟨p.x, p.y, p.z + line_height⟩),
   (0, points.length + 1, 1) :: (0, points.length, points.length + 1) ::
   (points.length - 2, points.length - 1, points.length * 2 - 1) ::
   (points.length - 2, points.length * 2 - 1, points.length * 2 - 2) ::
   mesh_wall_tris points.length)

/-- Decidable equality for Except values, for closed evaluations of parse
results. -/
instance {ε α : Type} [DecidableEq ε] [DecidableEq α] : DecidableEq (Except ε α) :=
  fun a b =>
    match a, b with
    | .ok x, .ok y =>
      if h : x = y then isTrue (by rw [h]) else isFalse (fun hc => h (Except.ok.inj hc))
    | .error x, .error y =>
      if h : x = y then isTrue (by rw [h]) else isFalse (fun hc => h (Except.error.inj hc))
    | .ok _, .error _ => isFalse (fun hc => Except.noConfusion hc)
    | .error _, .ok _ => isFalse (fun hc => Except.noConfusion hc)

/-- A text line of the instruction stream (trailing newline removed). -/
abbrev Line := List Char

/-- Python `s.split(sep)` for a one-character separator: splits at every
occurrence, keeping empty pieces, and yields one piece for empty input. -/
def strSplit (sep : Char) : Line → List Line
  | [] => [[]]
  | c :: cs =>
    match strSplit sep cs with
    | [] => [[]]
    | r :: rs => if c = sep then [] :: r :: rs else (c :: r) :: rs

/-- Comment stripping of parse_gcode_file: `line = line.split(";")[0]`. -/
def stripComment (raw : Line) : Line := (strSplit ';' raw).headD []

/-- Numeric value of a digit string. -/
def digitsToNat (ds : List Char) : ℕ :=
  ds.foldl (fun a c => 10 * a + (c.toNat - 48)) 0

/-- Exponent-suffix part of the Python float grammar: empty, or
`(e|E) (+|-)? digits`, consuming the whole rest of the token. -/
def parseExp (sign m : ℚ) : List Char → Option ℚ
  | [] => some (sign * m)
  | c :: t =>
    if c = 'e' ∨ c = 'E' then
      match t with
      | '-' :: u =>
        if u.takeWhile Char.isDigit = [] ∨ u.dropWhile Char.isDigit ≠ [] then none
        else some (sign * m * (10 : ℚ) ^ (-(digitsToNat (u.takeWhile Char.isDigit) : ℤ)))
      | '+' :: u =>
        if u.takeWhile Char.isDigit = [] ∨ u.dropWhile Char.isDigit ≠ [] then none
        else some (sign * m * (10 : ℚ) ^ (digitsToNat (u.takeWhile Char.isDigit) : ℤ))
      | u =>
        if u.takeWhile Char.isDigit = [] ∨ u.dropWhile Char.isDigit ≠ [] then none
        else some (sign * m * (10 : ℚ) ^ (digitsToNat (u.takeWhile Char.isDigit) : ℤ))
    else none

/-- Python `float(s)` on the standard decimal grammar
`(+|-)? (digits (. digits?)? | . digits) ((e|E) (+|-)? digits)?`
(infinities, nan and digit underscores are not modelled: they do not occur
in slicer output). `none` models the ValueError raised on a malformed
operand. -/
def parseFloat (s : List Char) : Option ℚ :=
  match s with
  | '-' :: s1 => parseFloatCore (-1) s1
  | '+' :: s1 => parseFloatCore 1 s1
  | s1 => parseFloatCore 1 s1
where
  /-- Unsigned part of the grammar. -/
  parseFloatCore (sign : ℚ) (s1 : List Char) : Option ℚ :=
    match s1.dropWhile Char.isDigit with
    | '.' :: t =>
      if s1.takeWhile Char.isDigit = [] ∧ t.takeWhile Char.isDigit = [] then none
      else
        parseExp sign
          ((digitsToNat (s1.takeWhile Char.isDigit) : ℚ) +
            (digitsToNat (t.takeWhile Char.isDigit) : ℚ) /
              (10 : ℚ) ^ (t.takeWhile Char.isDigit).length)
          (t.dropWhile Char.isDigit)
    | r1 =>
      if s1.takeWhile Char.isDigit = [] then none
      else parseExp sign (digitsToNat (s1.takeWhile Char.isDigit) : ℚ) r1

/-- The six registers saved in core_switch_save by parse_gcode_file, in
source order: current_x, current_y, current_z, last_extruded_z, last_e,
e_change. -/
structure Regs where
  x : ℚ
  y : ℚ
  z : ℚ
  lez : ℚ
  le : ℚ
  ec : ℚ
deriving DecidableEq, Repr

/-- The local state of parse_gcode_file while scanning the stream. -/
structure PState where
  one_layers : List Layer
  two_layers : List Layer
  one_lines : Layer
  two_lines : Layer
  one_new_line : Polyline
  two_new_line : Polyline
  current_x : ℚ
  current_y : ℚ
  current_z : ℚ
  last_extruded_z : ℚ
  last_e : ℚ
  e_change : ℚ
  core_switch_save : Regs
  printing : Bool
  printcore : ℕ
deriving DecidableEq, Repr

/-- Initial state of parse_gcode_file: empty accumulators, zero registers,
printing off, core 0 active. -/
def initState : PState :=
  ⟨[], [], [], [], [], [], 0, 0, 0, 0, 0, 0, ⟨0, 0, 0, 0, 0, 0⟩, false, 0⟩

/-- The `T0`/`T1` line prefixes recognised by parse_gcode_file. -/
def toolT0 : Line := ['T', '0']

/-- See toolT0. -/
def toolT1 : Line := ['T', '1']

/-- The `G0` motion code prefix. -/
def codeG0 : Line := ['G', '0']

/-- The `G1` motion code prefix. -/
def codeG1 : Line := ['G', '1']

/-- The `M205` start-of-print marker prefix. -/
def markerM205 : Line := ['M', '2', '0', '5']

/-- Tool-change handling of parse_gcode_file: when the requested core
differs from the active one, restore the six registers from
core_switch_save and save the current six registers into it. -/
def toolChange (s : PState) (line : Line) : PState :=
  if (if line.take 2 = toolT0 then 0 else 1) ≠ s.printcore then
    { s with
      printcore := if line.take 2 = toolT0 then 0 else 1,
      current_x := s.core_switch_save.x,
      current_y := s.core_switch_save.y,
      current_z := s.core_switch_save.z,
      last_extruded_z := s.core_switch_save.lez,
      last_e := s.core_switch_save.le,
      e_change := s.core_switch_save.ec,
      core_switch_save :=
        ⟨s.current_x, s.current_y, s.current_z, s.last_extruded_z, s.last_e, s.e_change⟩ }
  else s

/-- Layer close of parse_gcode_file on a new extruded z: append the active
core's accumulated lines to its layers, reset lines and the open polyline. -/
def closeLayer (s : PState) : PState :=
  if s.printcore = 0 then
    { s with one_layers := s.one_layers ++ [s.one_lines], one_lines := [], one_new_line := [] }
  else
    { s with two_layers := s.two_layers ++ [s.two_lines], two_lines := [], two_new_line := [] }

/-- Appending the new position to the active core's open polyline. -/
def appendCurrentPoint (s : PState) (p : Point3) : PState :=
  if s.printcore = 0 then
    { s with one_new_line := s.one_new_line ++ [p] }
  else
    { s with two_new_line := s.two_new_line ++ [p] }

/-- Non-extruding handling of parse_gcode_file: commit the active core's
open polyline to the current layer only when it has at least 2 points, then
reseed the open polyline with the new position. -/
def travelReset (s : PState) (p : Point3) : PState :=
  if s.printcore = 0 then
    { s with
      one_lines := if 1 < s.one_new_line.length then s.one_lines ++ [s.one_new_line] else s.one_lines,
      one_new_line := [p] }
  else
    { s with
      two_lines := if 1 < s.two_new_line.length then s.two_lines ++ [s.two_new_line] else s.two_lines,
      two_new_line := [p] }

/-- Operand loop of parse_gcode_file (`for p in parameters[1:]`): update the
proposed (x, y, z, e); an X value additionally gets the hotend offset when
the secondary core is active; a malformed float is fatal; empty pieces and
unrecognised letters are skipped. -/
def parseParams (hot : ℚ) (core : ℕ) :
    ℚ × ℚ × ℚ × ℚ → List Line → Except Unit (ℚ × ℚ × ℚ × ℚ)
  | q, [] => .ok q
  | q, [] :: ps => parseParams hot core q ps
  | (x, y, z, e), (c :: rest) :: ps =>
    if c = 'X' then
      match parseFloat rest with
      | none => .error ()
      | some v => parseParams hot core (if core = 1 then v + hot else v, y, z, e) ps
    else if c = 'Y' then
      match parseFloat rest with
      | none => .error ()
      | some v => parseParams hot core (x, v, z, e) ps
    else if c = 'Z' then
      match parseFloat rest with
      | none => .error ()
      | some v => parseParams hot core (x, y, v, e) ps
    else if c = 'E' then
      match parseFloat rest with
      | none => .error ()
      | some v => parseParams hot core (x, y, z, v) ps
    else parseParams hot core (x, y, z, e) ps

/-- Pure part of a motion command once its operands parsed to (x, y, z, e):
the extrusion-balance bookkeeping, the extrude/travel recording, and the
unconditional position update. Note the source never writes new_e back to
last_e, and updates e_change only when the E-and-axis test passes. -/
def motionApply (s : PState) (line : Line) (q : ℚ × ℚ × ℚ × ℚ) : PState :=
  if line.contains 'E' && (line.contains 'X' || line.contains 'Y' || line.contains 'Z') then
    if 0 < (if s.e_change ≤ 0 then s.e_change + (q.2.2.2 - s.last_e) else q.2.2.2 - s.last_e) then
      { appendCurrentPoint
          (if q.2.2.1 ≠ s.last_extruded_z then closeLayer s else s)
          ⟨q.1, q.2.1, q.2.2.1⟩ with
        last_extruded_z := q.2.2.1,
        e_change := if s.e_change ≤ 0 then s.e_change + (q.2.2.2 - s.last_e) else q.2.2.2 - s.last_e,
        current_x := q.1, current_y := q.2.1, current_z := q.2.2.1 }
    else
      { travelReset s ⟨q.1, q.2.1, q.2.2.1⟩ with
        e_change := if s.e_change ≤ 0 then s.e_change + (q.2.2.2 - s.last_e) else q.2.2.2 - s.last_e,
        current_x := q.1, current_y := q.2.1, current_z := q.2.2.1 }
  else
    { travelReset s ⟨q.1, q.2.1, q.2.2.1⟩ with
      current_x := q.1, current_y := q.2.1, current_z := q.2.2.1 }

/-- A G0/G1 line while printing: parse the operands (fatally on a malformed
float), then apply the pure motion step. -/
def motionStep (hot : ℚ) (s : PState) (line : Line) : Except Unit PState :=
  match parseParams hot s.printcore
      (s.current_x, s.current_y, s.current_z, s.last_e) ((strSplit ' ' line).drop 1) with
  | .error e => .error e
  | .ok q => .ok (motionApply s line q)

/-- One iteration of the `for line in file` loop of parse_gcode_file. -/
def stepLine (hot : ℚ) (s : PState) (raw : Line) : Except Unit PState :=
  if stripComment raw = [] then .ok s
  else
    motionCheck
      (if (stripComment raw).take 4 = markerM205 then
        { (if (stripComment raw).take 2 = toolT0 ∨ (stripComment raw).take 2 = toolT1 then
            toolChange s (stripComment raw)
          else s) with printing := true }
      else
        (if (stripComment raw).take 2 = toolT0 ∨ (stripComment raw).take 2 = toolT1 then
          toolChange s (stripComment raw)
        else s))
      (stripComment raw)
where
  /-- Motion dispatch: only while printing, and only on G0/G1 lines. -/
  motionCheck (s2 : PState) (line : Line) : Except Unit PState :=
    if s2.printing then
      if line.take 2 = codeG0 ∨ line.take 2 = codeG1 then motionStep hot s2 line
      else .ok s2
    else .ok s2

/-- The scan loop of parse_gcode_file over the whole stream; an exception
from any line aborts the run. -/
def runLines (hot : ℚ) (s : PState) : List Line → Except Unit PState
  | [] => .ok s
  | l :: ls =>
    match stepLine hot s l with
    | .error e => .error e
    | .ok s1 => runLines hot s1 ls

/-- parse_gcode_file from src/utils.py on a stream of lines: run the scan
loop from the initial state, then drop the first (pre-print artifact) layer
of each track. The source default for hotend_distance is 0. -/
def parse_gcode_file (lines : List Line) (hotend_distance : ℚ) :
    Except Unit (List Layer × List Layer) :=
  match runLines hotend_distance initState lines with
  | .error e => .error e
  | .ok s => .ok (s.one_layers.drop 1, s.two_layers.drop 1)

/-- Configuration fields stored by WatchDog.__init__ (src/watchdog.py); the
camera and aspect fields only drive the out-of-scope renderer but are kept
so the record mirrors the source constructor. -/
structure WatchDog where
  camera_pos : List ℚ
  camera_rot : List ℚ
  camera_fov : ℚ
  aspect_ratio : ℚ
  nozzle_width : ℚ
  main_color : List ℚ
  secondary_color : List ℚ
deriving DecidableEq, Repr

/-- Per-polyline fragment step of WatchDog.build_object_mesh: skip length-1
lines, offset by the hard-coded width 0.2, extrude by the hard-coded height
0.2, rebase the new indices by the running vertex count, and append. -/
def meshAddLine (sq : ℚ → ℚ) (acc : List Point3 × List Tri) (line : Polyline) :
    List Point3 × List Tri :=
  if 1 < line.length then
    (acc.1 ++ (build_mesh_from_points (get_corner_normals sq line (0.2 : ℚ)) (0.2 : ℚ)).1,
     acc.2 ++ (build_mesh_from_points (get_corner_normals sq line (0.2 : ℚ)) (0.2 : ℚ)).2.map
       (fun t => (t.1 + acc.1.length, t.2.1 + acc.1.length, t.2.2 + acc.1.length)))
  else acc

/-- Fragment accumulation over the first `height` layers of one track. -/
def meshAddTrack (sq : ℚ → ℚ) (layers : List Layer) (height : ℕ)
    (acc : List Point3 × List Tri) : List Point3 × List Tri :=
  (layers.take height).foldl (fun a L => L.foldl (meshAddLine sq) a) acc

/-- WatchDog.build_object_mesh from src/watchdog.py: the mesh triple handed
to trimesh (vertices, triangle indices, flat per-extruder vertex colors). -/
def build_object_mesh (sq : ℚ → ℚ) (w : WatchDog)
    (main_layers secondary_layers : List Layer) (height : ℕ) :
    List Point3 × List Tri × List (List ℚ) :=
  ((if secondary_layers ≠ [] then
      meshAddTrack sq secondary_layers height
        (if main_layers ≠ [] then meshAddTrack sq main_layers height ([], []) else ([], []))
    else
      (if main_layers ≠ [] then meshAddTrack sq main_layers height ([], []) else ([], []))).1,
   (if secondary_layers ≠ [] then
      meshAddTrack sq secondary_layers height
        (if main_layers ≠ [] then meshAddTrack sq main_layers height ([], []) else ([], []))
    else
      (if main_layers ≠ [] then meshAddTrack sq main_layers height ([], []) else ([], []))).2,
   List.replicate
     (if main_layers ≠ [] then meshAddTrack sq main_layers height ([], []) else ([], [])).1.length
     w.main_color ++
   List.replicate
     ((if secondary_layers ≠ [] then
        meshAddTrack sq secondary_layers height
          (if main_layers ≠ [] then meshAddTrack sq main_layers height ([], []) else ([], []))
      else
        (if main_layers ≠ [] then meshAddTrack sq main_layers height ([], []) else ([], []))).1.length -
      (if main_layers ≠ [] then meshAddTrack sq main_layers height ([], []) else ([], [])).1.length)
     w.secondary_color)

/-- Invariant of the scan loop: every polyline already committed to a layer
list or to the current-layer accumulator of either extruder has at least two
points (the open polylines one_new_line/two_new_line are unconstrained). -/
def layerLenInv (s : PState) : Prop :=
  (∀ L ∈ s.one_layers, ∀ pl ∈ L, 2 ≤ pl.length) ∧
  (∀ pl ∈ s.one_lines, 2 ≤ pl.length) ∧
  (∀ L ∈ s.two_layers, ∀ pl ∈ L, 2 ≤ pl.length) ∧
  (∀ pl ∈ s.two_lines, 2 ≤ pl.length)

/-- Claim C1 (counterexample): for the stream `M205`; `G1 X10 Y0 Z0.2 E1`;
`G1 X10 Y10 Z0.2 E2`; `G0 X0 Y0 Z0.2` with hotend offset 0, the parser's
returned primary track is empty, not a track of exactly one layer: the only
layer ever appended to the track is the empty pre-print layer (dropped at
the end), while the single committed polyline is still sitting in the
current-layer accumulator when the stream ends and is never flushed. -/
theorem c1_counterexample :
    parse_gcode_file ["M205".toList, "G1 X10 Y0 Z0.2 E1".toList,
        "G1 X10 Y10 Z0.2 E2".toList, "G0 X0 Y0 Z0.2".toList] 0 =
      .ok ([], []) ∧
    (([] : List Layer).length = 1) = False := by
  exact ⟨by with_unfolding_all decide, eq_false (by decide)⟩

/-- Claim C1 (amended): after scanning that stream the parser state holds
exactly one layer in the track list (the empty pre-print artifact), exactly
one polyline `[[10,0,0.2],[10,10,0.2]]` in the still-open current-layer
accumulator, and an open polyline reseeded with the single travel point
`[0,0,0.2]`; the returned primary track (after the first-layer drop) is
therefore empty. -/
theorem c1_amended_state :
    (runLines 0 initState ["M205".toList, "G1 X10 Y0 Z0.2 E1".toList,
        "G1 X10 Y10 Z0.2 E2".toList, "G0 X0 Y0 Z0.2".toList]).map
      (fun s => (s.one_layers, s.one_lines, s.one_new_line, s.two_layers)) =
      .ok ([[]],
        [[⟨10, 0, 0.2⟩, ⟨10, 10, 0.2⟩]],
        [⟨0, 0, 0.2⟩],
        []) ∧
    parse_gcode_file ["M205".toList, "G1 X10 Y0 Z0.2 E1".toList,
        "G1 X10 Y10 Z0.2 E2".toList, "G0 X0 Y0 Z0.2".toList] 0 =
      .ok ([], []) := by
  exact ⟨by with_unfolding_all decide, by with_unfolding_all decide⟩

/-- Claim C2 (code behaviour at the failing input): with the E register
sequence 1, -2, -1, 0, 2, 3, 4 the per-move E deltas are
+1, -3, +1, +1, +2, +1, +1, so per the claim the move `G1 X0 Y4 Z0.2 E2`
(balance 1, -2, -1, 0, then 2) must extrude and the polyline committed by
the later travel move would be [[0,3,0.2],[0,4,0.2],[9,9,0.2]]. The source
never writes new_e back into last_e, so it computes every delta against the
initial 0, marks that move as not extruding (its balance is -1), and the
committed polyline is [[0,4,0.2],[9,9,0.2]]. -/
theorem c2_last_e_frozen :
    parse_gcode_file ["M205".toList, "G1 X0 Y0 Z0.2 E1".toList,
        "G1 X0 Y1 Z0.2 E-2".toList, "G1 X0 Y2 Z0.2 E-1".toList,
        "G1 X0 Y3 Z0.2 E0".toList, "G1 X0 Y4 Z0.2 E2".toList,
        "G1 X9 Y9 Z0.2 E3".toList, "G0 X0 Y0 Z0.2".toList,
        "G1 X1 Y1 Z0.4 E4".toList] 0 =
      .ok ([[[⟨0, 4, 0.2⟩, ⟨9, 9, 0.2⟩]]], []) := by
  with_unfolding_all decide

/-- Claim C8 (code behaviour): build_object_mesh never reads the configured
nozzle_width — its output is identical for any two configurations differing
only in nozzle_width — and it offsets every polyline by the hard-coded
constant 0.2, as the first ribbon vertex of a unit segment shows (offset
0.2, not the nozzle half-width 0.5 that a width-1 nozzle would give). -/
theorem c8_nozzle_width_ignored :
    (∀ (sq : ℚ → ℚ) (cp cr : List ℚ) (fov ar nw nw2 : ℚ) (mc sc : List ℚ)
      (main sec : List Layer) (height : ℕ),
      build_object_mesh sq ⟨cp, cr, fov, ar, nw, mc, sc⟩ main sec height =
        build_object_mesh sq ⟨cp, cr, fov, ar, nw2, mc, sc⟩ main sec height) ∧
    (build_object_mesh ratSqrt ⟨[], [], 0, 1, 1, [1], [2]⟩
        [[[⟨0, 0, 0⟩, ⟨1, 0, 0⟩]]] [] 1).1.headD pt0 = ⟨0, 0.2, 0⟩ ∧
    ((0.2 : ℚ) = 1 / 2) = False := by
  refine ⟨fun sq cp cr fov ar nw nw2 mc sc main sec height => rfl,
    by with_unfolding_all decide, eq_false (by with_unfolding_all decide)⟩

/-- Claim C4 (counterexample): at the interior point of the exactly
collinear polyline [[0,0,0],[1,0,0],[2,0,0]] the next difference vector is
exactly the negative of the last difference vector, yet the exact-equality
degeneracy branch is NOT taken (the branch fires when the two rotated
normals are negatives, which for the source's two opposite rotations means
the two difference vectors are equal, not opposite); and at an interior
point with both difference vectors zero-length (three duplicate points) the
branch IS taken but the normalisation divisor is zero, i.e. the offset
generator does divide by zero there. -/
theorem c4_counterexample :
    (corner_next_dif ⟨1, 0, 0⟩ ⟨2, 0, 0⟩ =
        (-(corner_last_dif ⟨0, 0, 0⟩ ⟨1, 0, 0⟩).1,
         -(corner_last_dif ⟨0, 0, 0⟩ ⟨1, 0, 0⟩).2) ∧
      degeneracy_branch ⟨0, 0, 0⟩ ⟨1, 0, 0⟩ ⟨2, 0, 0⟩ = False) ∧
    (degeneracy_branch ⟨0, 0, 0⟩ ⟨0, 0, 0⟩ ⟨0, 0, 0⟩ ∧
      interior_mag_sq ⟨0, 0, 0⟩ ⟨0, 0, 0⟩ ⟨0, 0, 0⟩ = 0 ∧
      ratSqrt (interior_mag_sq ⟨0, 0, 0⟩ ⟨0, 0, 0⟩ ⟨0, 0, 0⟩) = 0) := by
  refine ⟨⟨by with_unfolding_all decide, eq_false (by with_unfolding_all decide)⟩,
    by with_unfolding_all decide, by with_unfolding_all decide,
    by with_unfolding_all decide⟩

/-- Claim C4 (amended): the exact-equality branch of get_corner_normals
fires at an interior point precisely in the exact-reversal situation, where
the two source difference vectors (current - previous and current - next)
are EQUAL; there, with nonzero difference vectors, the normalisation
radicand is positive, so no division by zero happens. An exactly collinear
interior point — next difference vector the exact negative of the last one,
both nonzero — takes the summing branch instead, also with a positive
radicand. (When both difference vectors are zero the branch is taken with a
zero radicand: see the counterexample.) -/
theorem c4_amended (a b c : Point3) :
    (corner_last_dif a b = corner_next_dif b c →
      degeneracy_branch a b c ∧
        (corner_last_dif a b ≠ ((0 : ℚ), (0 : ℚ)) → 0 < interior_mag_sq a b c)) ∧
    (corner_next_dif b c = (-(corner_last_dif a b).1, -(corner_last_dif a b).2) →
      corner_last_dif a b ≠ ((0 : ℚ), (0 : ℚ)) →
      ¬ degeneracy_branch a b c ∧ 0 < interior_mag_sq a b c) := by
  constructor
  · intro hrev
    have hx := congrArg Prod.fst hrev
    have hy := congrArg Prod.snd hrev
    simp only at hx hy
    have hbr : degeneracy_branch a b c := by
      constructor
      · simp only [corner_last_normal, corner_next_normal, rotate_vector]
        rw [hy]; ring
      · simp only [corner_last_normal, corner_next_normal, rotate_vector]
        rw [hx]; ring
    refine ⟨hbr, fun hne => ?_⟩
    have hor : (corner_last_dif a b).1 ≠ 0 ∨ (corner_last_dif a b).2 ≠ 0 := by
      by_contra hc
      push_neg at hc
      exact hne (Prod.ext_iff.mpr ⟨hc.1, hc.2⟩)
    rw [interior_mag_sq, interior_raw_normal, if_pos hbr]
    simp only [corner_last_normal, rotate_vector]
    rcases hor with h | h
    · nlinarith [sq_pos_of_ne_zero h, sq_nonneg (corner_last_dif a b).2]
    · nlinarith [sq_pos_of_ne_zero h, sq_nonneg (corner_last_dif a b).1]
  · intro hneg hne
    have hx := congrArg Prod.fst hneg
    have hy := congrArg Prod.snd hneg
    simp only at hx hy
    have hnbr : ¬ degeneracy_branch a b c := by
      intro hbr
      obtain ⟨e1, e2⟩ := hbr
      simp only [corner_last_normal, corner_next_normal, rotate_vector] at e1 e2
      rw [hx] at e2
      rw [hy] at e1
      ring_nf at e1 e2
      apply hne
      rw [Prod.ext_iff]
      constructor
      · show (corner_last_dif a b).1 = 0
        linarith
      · show (corner_last_dif a b).2 = 0
        linarith
    refine ⟨hnbr, ?_⟩
    have hor : (corner_last_dif a b).1 ≠ 0 ∨ (corner_last_dif a b).2 ≠ 0 := by
      by_contra hc
      push_neg at hc
      exact hne (Prod.ext_iff.mpr ⟨hc.1, hc.2⟩)
    rw [interior_mag_sq, interior_raw_normal, if_neg hnbr]
    simp only [corner_last_normal, corner_next_normal, rotate_vector]
    rw [hx, hy]
    rcases hor with h | h
    · nlinarith [sq_pos_of_ne_zero h, sq_nonneg (corner_last_dif a b).2]
    · nlinarith [sq_pos_of_ne_zero h, sq_nonneg (corner_last_dif a b).1]

/-- Claim C4 (witness): the amended theorem applied at the concrete exact
reversal [0,0,0] → [1,0,0] → [0,0,0] (branch taken, positive radicand) and
at the concrete collinear triple [0,0,0], [1,0,0], [2,0,0] (branch not
taken, positive radicand). -/
theorem c4_witness :
    degeneracy_branch ⟨0, 0, 0⟩ ⟨1, 0, 0⟩ ⟨0, 0, 0⟩ ∧
    0 < interior_mag_sq ⟨0, 0, 0⟩ ⟨1, 0, 0⟩ ⟨0, 0, 0⟩ ∧
    degeneracy_branch ⟨0, 0, 0⟩ ⟨1, 0, 0⟩ ⟨2, 0, 0⟩ = False ∧
    0 < interior_mag_sq ⟨0, 0, 0⟩ ⟨1, 0, 0⟩ ⟨2, 0, 0⟩ := by
  have h1 := (c4_amended ⟨0, 0, 0⟩ ⟨1, 0, 0⟩ ⟨0, 0, 0⟩).1 (by with_unfolding_all decide)
  have h2 := (c4_amended ⟨0, 0, 0⟩ ⟨1, 0, 0⟩ ⟨2, 0, 0⟩).2 (by with_unfolding_all decide)
    (by with_unfolding_all decide)
  exact ⟨h1.1, h1.2 (by with_unfolding_all decide), eq_false h2.1, h2.2⟩

/-- Length of a flatMap whose blocks all have the same length. -/
theorem flatMap_const_length {α β : Type} (l : List α) (f : α → List β) (cn : ℕ)
    (h : ∀ a, (f a).length = cn) : (l.flatMap f).length = cn * l.length := by
  induction l with
  | nil => simp
  | cons a tl ih =>
    simp only [List.flatMap_cons, List.length_append, List.length_cons, h a, ih]
    ring

/-- The wall loop emits 8 triangles per visited index. -/
theorem mesh_wall_tris_length (pc : ℕ) :
    (mesh_wall_tris pc).length = 8 * ((pc - 1) / 2) := by
  unfold mesh_wall_tris
  rw [flatMap_const_length _ _ 8]
  · simp [List.length_range']
  · intro a
    rfl

/-- Every even wall index j below pc - 2 contributes its quad triangles:
the ones used by the vertex-coverage argument. -/
theorem mesh_wall_tris_mem (pc j : ℕ) (hj : j < pc - 2) (hj2 : j % 2 = 0) :
    (j, j + 1, j + 3) ∈ mesh_wall_tris pc ∧
    (pc + j, pc + j + 3, pc + j + 1) ∈ mesh_wall_tris pc ∧
    (pc + j, pc + j + 2, pc + j + 3) ∈ mesh_wall_tris pc := by
  have hmem : j ∈ List.range' 0 ((pc - 1) / 2) 2 := by
    rw [List.mem_range']
    exact ⟨j / 2, by omega, by omega⟩
  unfold mesh_wall_tris
  refine ⟨?_, ?_, ?_⟩ <;> rw [List.mem_flatMap] <;> exact ⟨j, hmem, by simp⟩

/-- Claim C3 (amended): for a boundary sequence of N ≥ 2 pairs (2N points)
and any height h, build_mesh_from_points returns exactly 2*(2N) vertices —
the input points followed by the input points raised by h in z — its index
list references every vertex index below 2*(2N), and it contains exactly
4 + 8*(N-1) triangles (the claim's 4 + 8*(N-2) is off by one block: the
wall loop runs (2N-1)/2 = N-1 times). -/
theorem c3_amended (N : ℕ) (pts : List Point3) (h : ℚ)
    (hN : 2 ≤ N) (hlen : pts.length = 2 * N) :
    (build_mesh_from_points pts h).1 =
      pts ++ pts.map (fun p => ⟨p.x, p.y, p.z + h⟩) ∧
    (build_mesh_from_points pts h).1.length = 2 * (2 * N) ∧
    (build_mesh_from_points pts h).2.length = 4 + 8 * (N - 1) ∧
    ∀ v, v < 2 * (2 * N) →
      ∃ t ∈ (build_mesh_from_points pts h).2, v = t.1 ∨ v = t.2.1 ∨ v = t.2.2 := by
  refine ⟨rfl, ?_, ?_, ?_⟩
  · simp [build_mesh_from_points, hlen]
    ring
  · simp only [build_mesh_from_points, List.length_cons, mesh_wall_tris_length, hlen]
    omega
  · intro v hv
    simp only [build_mesh_from_points, List.mem_cons]
    rcases Nat.lt_or_ge v (2 * N) with hb | ht
    · rcases Nat.lt_or_ge v (2 * N - 2) with hw | hc
      · -- bottom wall quad at the even index below v
        obtain ⟨h1, _, _⟩ := mesh_wall_tris_mem pts.length (v - v % 2)
          (by omega) (by omega)
        refine ⟨(v - v % 2, v - v % 2 + 1, v - v % 2 + 3),
          Or.inr (Or.inr (Or.inr (Or.inr h1))), ?_⟩
        dsimp only
        omega
      · -- back cap, bottom pair
        refine ⟨(pts.length - 2, pts.length - 1, pts.length * 2 - 1),
          Or.inr (Or.inr (Or.inl rfl)), ?_⟩
        dsimp only
        rw [hlen]
        omega
    · rcases Nat.lt_or_ge v (2 * (2 * N) - 2) with hw | hc
      · -- top wall quad at the even index below v - 2N
        obtain ⟨_, h2, _⟩ := mesh_wall_tris_mem pts.length ((v - 2 * N) - (v - 2 * N) % 2)
          (by omega) (by omega)
        refine ⟨_, Or.inr (Or.inr (Or.inr (Or.inr h2))), ?_⟩
        dsimp only
        rw [hlen]
        omega
      · -- back cap, top pair
        refine ⟨(pts.length - 2, pts.length * 2 - 1, pts.length * 2 - 2),
          Or.inr (Or.inr (Or.inr (Or.inl rfl))), ?_⟩
        dsimp only
        rw [hlen]
        omega

/-- Claim C3 (counterexample): for N = 2 boundary pairs (4 points) the
index list has 12 triangles, not 4 + 8*(N-2) = 4. -/
theorem c3_counterexample :
    (build_mesh_from_points [pt0, pt0, pt0, pt0] 1).2.length = 12 ∧
    (4 + 8 * (2 - 2) = 12) = False := by
  exact ⟨by decide, eq_false (by decide)⟩

/-- Claim C3 (witness): the amended theorem applied at N = 2 with four
concrete points and height 1. -/
theorem c3_witness :
    (2 ≤ 2 ∧ ([pt0, pt0, pt0, pt0] : List Point3).length = 2 * 2) ∧
    (build_mesh_from_points [pt0, pt0, pt0, pt0] 1).2.length = 4 + 8 * (2 - 1) := by
  refine ⟨⟨by decide, by decide⟩, ?_⟩
  exact (c3_amended 2 [pt0, pt0, pt0, pt0] 1 (by decide) (by decide)).2.2.1

/-- getD of an append, index inside the left part. -/
theorem getD_append_lt {α : Type} (l l2 : List α) (n : ℕ) (d : α) (h : n < l.length) :
    (l ++ l2).getD n d = l.getD n d := by
  induction l generalizing n with
  | nil => simp at h
  | cons a tl ih =>
    cases n with
    | zero => rfl
    | succ m =>
      simp only [List.cons_append, List.getD_cons_succ]
      exact ih m (by simpa using h)

/-- getD of an append, index at or past the left part. -/
theorem getD_append_ge {α : Type} (l l2 : List α) (n : ℕ) (d : α) (h : l.length ≤ n) :
    (l ++ l2).getD n d = l2.getD (n - l.length) d := by
  induction l generalizing n with
  | nil => simp
  | cons a tl ih =>
    cases n with
    | zero => simp at h
    | succ m =>
      simp only [List.cons_append, List.getD_cons_succ, List.length_cons]
      rw [ih m (by simpa using h)]
      congr 1
      omega

/-- getD of a step-1 range'. -/
theorem range'_getD (s m k d : ℕ) (h : k < m) :
    (List.range' s m).getD k d = s + k := by
  induction m generalizing s k with
  | zero => omega
  | succ m2 ih =>
    rw [List.range'_succ]
    cases k with
    | zero => simp
    | succ k2 =>
      simp only [List.getD_cons_succ]
      rw [ih (s + 1) k2 (by omega)]
      omega

/-- Indexed access into a flatMap of two-element blocks. -/
theorem flatMap_pair_getD {α β : Type} (l : List α) (f g : α → β) (k : ℕ) (d : β)
    (dα : α) (hk : k < l.length) :
    ((l.flatMap fun a => [f a, g a]).getD (2 * k) d = f (l.getD k dα)) ∧
    ((l.flatMap fun a => [f a, g a]).getD (2 * k + 1) d = g (l.getD k dα)) := by
  induction l generalizing k with
  | nil => simp at hk
  | cons a tl ih =>
    cases k with
    | zero => exact ⟨rfl, rfl⟩
    | succ n =>
      have hn : n < tl.length := by simpa using hk
      constructor
      · rw [show 2 * (n + 1) = 2 * n + 1 + 1 from by ring]
        simp only [List.flatMap_cons, List.cons_append, List.getD_cons_succ]
        exact (ih n hn).1
      · rw [show 2 * (n + 1) + 1 = 2 * n + 1 + 1 + 1 from by ring]
        simp only [List.flatMap_cons, List.cons_append, List.getD_cons_succ]
        exact (ih n hn).2

/-- The interior loop emits two boundary points per interior input point. -/
theorem interior_corners_length (sq : ℚ → ℚ) (w : ℚ) (line : List Point3) :
    (interior_corners sq w line).length = 2 * (line.length - 2) := by
  unfold interior_corners
  rw [flatMap_const_length _ _ 2]
  · simp
  · intro a
    rfl

/-- Claim C5: for every polyline of N ≥ 2 points and half-width w, the
offset generator returns exactly 2*N boundary points; for each input index
i the consecutive pair at positions (2i, 2i+1) is input point i offset by
+normal and -normal respectively (the normal being the endpoint rule at the
two ends and the interior miter rule in between), and both output points
carry input point i's z coordinate unchanged. -/
theorem c5_boundary_pairs (sq : ℚ → ℚ) (line : List Point3) (w : ℚ)
    (hN : 2 ≤ line.length) :
    (get_corner_normals sq line w).length = 2 * line.length ∧
    ∀ i, i < line.length →
      (get_corner_normals sq line w).getD (2 * i) pt0 =
        (add_vector_bi (corner_normal sq w line i) (line.getD i pt0)).1 ∧
      (get_corner_normals sq line w).getD (2 * i + 1) pt0 =
        (add_vector_bi (corner_normal sq w line i) (line.getD i pt0)).2 ∧
      ((get_corner_normals sq line w).getD (2 * i) pt0).z = (line.getD i pt0).z ∧
      ((get_corner_normals sq line w).getD (2 * i + 1) pt0).z = (line.getD i pt0).z := by
  have hlt : 1 < line.length := hN
  constructor
  · rw [get_corner_normals, if_pos hlt]
    simp only [List.length_cons, List.length_append, interior_corners_length,
      List.length_nil]
    omega
  · intro i hi
    have hpair :
        (get_corner_normals sq line w).getD (2 * i) pt0 =
          (add_vector_bi (corner_normal sq w line i) (line.getD i pt0)).1 ∧
        (get_corner_normals sq line w).getD (2 * i + 1) pt0 =
          (add_vector_bi (corner_normal sq w line i) (line.getD i pt0)).2 := by
      rw [get_corner_normals, if_pos hlt]
      by_cases h0 : i = 0
      · subst h0
        exact ⟨rfl, rfl⟩
      · by_cases hlast : i = line.length - 1
        · subst hlast
          constructor
          · rw [show 2 * (line.length - 1) = 2 * (line.length - 1 - 1) + 1 + 1 from by omega,
              List.getD_cons_succ, List.getD_cons_succ,
              getD_append_ge _ _ _ _ (by rw [interior_corners_length]; omega),
              interior_corners_length,
              show 2 * (line.length - 1 - 1) - 2 * (line.length - 2) = 0 from by omega]
            simp [corner_normal, h0]
          · rw [show 2 * (line.length - 1) + 1 = 2 * (line.length - 1 - 1) + 1 + 1 + 1 from by omega,
              List.getD_cons_succ, List.getD_cons_succ,
              getD_append_ge _ _ _ _ (by rw [interior_corners_length]; omega),
              interior_corners_length,
              show 2 * (line.length - 1 - 1) + 1 - 2 * (line.length - 2) = 1 from by omega]
            simp [corner_normal, h0]
        · have hband : 1 ≤ i ∧ i ≤ line.length - 2 := by omega
          constructor
          · rw [show 2 * i = 2 * (i - 1) + 1 + 1 from by omega,
              List.getD_cons_succ, List.getD_cons_succ,
              getD_append_lt _ _ _ _ (by rw [interior_corners_length]; omega)]
            unfold interior_corners
            rw [(flatMap_pair_getD (List.range' 1 (line.length - 2))
              (fun j => (add_vector_bi (interior_normal sq w (line.getD (j - 1) pt0)
                (line.getD j pt0) (line.getD (j + 1) pt0)) (line.getD j pt0)).1)
              (fun j => (add_vector_bi (interior_normal sq w (line.getD (j - 1) pt0)
                (line.getD j pt0) (line.getD (j + 1) pt0)) (line.getD j pt0)).2)
              (i - 1) pt0 0 (by simp only [List.length_range']; omega)).1]
            rw [range'_getD 1 (line.length - 2) (i - 1) 0 (by omega),
              show 1 + (i - 1) = i from by omega]
            simp [corner_normal, h0, hlast]
          · rw [show 2 * i + 1 = 2 * (i - 1) + 1 + 1 + 1 from by omega,
              List.getD_cons_succ, List.getD_cons_succ,
              getD_append_lt _ _ _ _ (by rw [interior_corners_length]; omega)]
            unfold interior_corners
            rw [(flatMap_pair_getD (List.range' 1 (line.length - 2))
              (fun j => (add_vector_bi (interior_normal sq w (line.getD (j - 1) pt0)
                (line.getD j pt0) (line.getD (j + 1) pt0)) (line.getD j pt0)).1)
              (fun j => (add_vector_bi (interior_normal sq w (line.getD (j - 1) pt0)
                (line.getD j pt0) (line.getD (j + 1) pt0)) (line.getD j pt0)).2)
              (i - 1) pt0 0 (by simp only [List.length_range']; omega)).2]
            rw [range'_getD 1 (line.length - 2) (i - 1) 0 (by omega),
              show 1 + (i - 1) = i from by omega]
            simp [corner_normal, h0, hlast]
    obtain ⟨m1, m2⟩ := hpair
    exact ⟨m1, m2, by rw [m1]; rfl, by rw [m2]; rfl⟩

/-- Claim C5 (witness): the theorem applied to the concrete two-point
polyline [[0,0,5],[1,0,7]] with half-width 1, at input index 0. -/
theorem c5_witness :
    2 ≤ ([⟨0, 0, 5⟩, ⟨1, 0, 7⟩] : List Point3).length ∧
    (get_corner_normals ratSqrt [⟨0, 0, 5⟩, ⟨1, 0, 7⟩] 1).length = 2 * 2 ∧
    (get_corner_normals ratSqrt [⟨0, 0, 5⟩, ⟨1, 0, 7⟩] 1).getD 0 pt0 =
      (add_vector_bi (corner_normal ratSqrt 1 [⟨0, 0, 5⟩, ⟨1, 0, 7⟩] 0)
        (⟨0, 0, 5⟩ : Point3)).1 ∧
    ((get_corner_normals ratSqrt [⟨0, 0, 5⟩, ⟨1, 0, 7⟩] 1).getD 0 pt0).z = 5 := by
  have h := c5_boundary_pairs ratSqrt [⟨0, 0, 5⟩, ⟨1, 0, 7⟩] 1 (by decide)
  have h0 := h.2 0 (by decide)
  refine ⟨by decide, h.1, ?_, ?_⟩
  · simpa using h0.1
  · simpa using h0.2.2.1


/-- A bare tool-change line is handled entirely by toolChange: the motion
dispatch leaves the state alone whatever the printing flag is. -/
theorem stepLine_toolT0 (hot : ℚ) (s : PState) :
    stepLine hot s toolT0 = .ok (toolChange s toolT0) := by
  unfold stepLine
  rw [show stripComment toolT0 = toolT0 from rfl]
  rw [if_neg (by decide : ¬(toolT0 = ([] : Line)))]
  rw [if_pos (by decide : toolT0.take 2 = toolT0 ∨ toolT0.take 2 = toolT1)]
  rw [if_neg (by decide : ¬(toolT0.take 4 = markerM205))]
  unfold stepLine.motionCheck
  split
  · rw [if_neg (by decide : ¬(toolT0.take 2 = codeG0 ∨ toolT0.take 2 = codeG1))]
  · rfl

/-- See stepLine_toolT0. -/
theorem stepLine_toolT1 (hot : ℚ) (s : PState) :
    stepLine hot s toolT1 = .ok (toolChange s toolT1) := by
  unfold stepLine
  rw [show stripComment toolT1 = toolT1 from rfl]
  rw [if_neg (by decide : ¬(toolT1 = ([] : Line)))]
  rw [if_pos (by decide : toolT1.take 2 = toolT0 ∨ toolT1.take 2 = toolT1)]
  rw [if_neg (by decide : ¬(toolT1.take 4 = markerM205))]
  unfold stepLine.motionCheck
  split
  · rw [if_neg (by decide : ¬(toolT1.take 2 = codeG0 ∨ toolT1.take 2 = codeG1))]
  · rfl

/-- Two opposite tool changes compose to the identity on the state
(active core 0). -/
theorem toolChange_roundtrip0 (s : PState) (h0 : s.printcore = 0) :
    toolChange (toolChange s toolT1) toolT0 = s := by
  unfold toolChange
  rw [if_neg (by decide : ¬(toolT1.take 2 = toolT0)), h0,
    if_pos (by decide : (1 : ℕ) ≠ 0)]
  rw [if_pos (by decide : toolT0.take 2 = toolT0)]
  dsimp only
  rw [if_pos (by decide : (0 : ℕ) ≠ 1)]
  rw [← h0]

/-- Two opposite tool changes compose to the identity on the state
(active core 1). -/
theorem toolChange_roundtrip1 (s : PState) (h1 : s.printcore = 1) :
    toolChange (toolChange s toolT0) toolT1 = s := by
  unfold toolChange
  rw [if_pos (by decide : toolT0.take 2 = toolT0), h1,
    if_pos (by decide : (0 : ℕ) ≠ 1)]
  rw [if_neg (by decide : ¬(toolT1.take 2 = toolT0))]
  dsimp only
  rw [if_pos (by decide : (1 : ℕ) ≠ 0)]
  rw [← h1]

/-- Claim C6: a tool-change command selecting the other tool swaps the
entire six-component printer state (position x, y, z, last-extruded z,
last E, extrusion balance) with the saved slot — no component left
un-swapped — and a second tool change straight back, with no intervening
motion, restores every component of the state exactly. -/
theorem c6_tool_change_roundtrip (hot : ℚ) (s : PState) :
    (s.printcore = 0 →
      stepLine hot s toolT1 =
        .ok { s with
          printcore := 1,
          current_x := s.core_switch_save.x,
          current_y := s.core_switch_save.y,
          current_z := s.core_switch_save.z,
          last_extruded_z := s.core_switch_save.lez,
          last_e := s.core_switch_save.le,
          e_change := s.core_switch_save.ec,
          core_switch_save := ⟨s.current_x, s.current_y, s.current_z,
            s.last_extruded_z, s.last_e, s.e_change⟩ } ∧
      (stepLine hot s toolT1).bind (fun s1 => stepLine hot s1 toolT0) = .ok s) ∧
    (s.printcore = 1 →
      stepLine hot s toolT0 =
        .ok { s with
          printcore := 0,
          current_x := s.core_switch_save.x,
          current_y := s.core_switch_save.y,
          current_z := s.core_switch_save.z,
          last_extruded_z := s.core_switch_save.lez,
          last_e := s.core_switch_save.le,
          e_change := s.core_switch_save.ec,
          core_switch_save := ⟨s.current_x, s.current_y, s.current_z,
            s.last_extruded_z, s.last_e, s.e_change⟩ } ∧
      (stepLine hot s toolT0).bind (fun s1 => stepLine hot s1 toolT1) = .ok s) := by
  constructor
  · intro h0
    have e1 : toolChange s toolT1 =
        { s with
          printcore := 1,
          current_x := s.core_switch_save.x,
          current_y := s.core_switch_save.y,
          current_z := s.core_switch_save.z,
          last_extruded_z := s.core_switch_save.lez,
          last_e := s.core_switch_save.le,
          e_change := s.core_switch_save.ec,
          core_switch_save := ⟨s.current_x, s.current_y, s.current_z,
            s.last_extruded_z, s.last_e, s.e_change⟩ } := by
      unfold toolChange
      rw [if_neg (by decide : ¬(toolT1.take 2 = toolT0)), h0,
        if_pos (by decide : (1 : ℕ) ≠ 0)]
    refine ⟨by rw [stepLine_toolT1, e1], ?_⟩
    rw [stepLine_toolT1]
    show stepLine hot (toolChange s toolT1) toolT0 = .ok s
    rw [stepLine_toolT0, toolChange_roundtrip0 s h0]
  · intro h1
    have e1 : toolChange s toolT0 =
        { s with
          printcore := 0,
          current_x := s.core_switch_save.x,
          current_y := s.core_switch_save.y,
          current_z := s.core_switch_save.z,
          last_extruded_z := s.core_switch_save.lez,
          last_e := s.core_switch_save.le,
          e_change := s.core_switch_save.ec,
          core_switch_save := ⟨s.current_x, s.current_y, s.current_z,
            s.last_extruded_z, s.last_e, s.e_change⟩ } := by
      unfold toolChange
      rw [if_pos (by decide : toolT0.take 2 = toolT0), h1,
        if_pos (by decide : (0 : ℕ) ≠ 1)]
    refine ⟨by rw [stepLine_toolT0, e1], ?_⟩
    rw [stepLine_toolT0]
    show stepLine hot (toolChange s toolT0) toolT1 = .ok s
    rw [stepLine_toolT1, toolChange_roundtrip1 s h1]

/-- Claim C6 (witness): the roundtrip applied to the initial state (active
core 0): switching to tool 1 and straight back restores it exactly. -/
theorem c6_witness :
    initState.printcore = 0 ∧
    (stepLine 0 initState toolT1).bind (fun s1 => stepLine 0 s1 toolT0) =
      .ok initState :=
  ⟨rfl, ((c6_tool_change_roundtrip 0 initState).1 rfl).2⟩

/-- The invariant holds at parse start. -/
theorem layerLenInv_init : layerLenInv initState := by
  refine ⟨?_, ?_, ?_, ?_⟩ <;> intro L hL <;> simp [initState] at hL

/-- The invariant only reads the four accumulator fields. -/
theorem layerLenInv_of_eq (s t : PState)
    (h1 : t.one_layers = s.one_layers) (h2 : t.one_lines = s.one_lines)
    (h3 : t.two_layers = s.two_layers) (h4 : t.two_lines = s.two_lines)
    (h : layerLenInv s) : layerLenInv t := by
  unfold layerLenInv at h ⊢
  rw [h1, h2, h3, h4]
  exact h

/-- Tool changes touch only the scalar registers, not the accumulators. -/
theorem layerLenInv_toolChange (s : PState) (l : Line) (h : layerLenInv s) :
    layerLenInv (toolChange s l) := by
  unfold toolChange
  split <;> split <;> exact h

/-- Closing a layer moves an all-good accumulator into the layer list. -/
theorem layerLenInv_closeLayer (s : PState) (h : layerLenInv s) :
    layerLenInv (closeLayer s) := by
  obtain ⟨h1, h2, h3, h4⟩ := h
  unfold closeLayer
  split
  · refine ⟨?_, ?_, h3, h4⟩
    · intro L hL
      rcases List.mem_append.mp hL with hL | hL
      · exact h1 L hL
      · rw [List.mem_singleton.mp hL]
        exact h2
    · intro pl hpl
      simp at hpl
  · refine ⟨h1, h2, ?_, ?_⟩
    · intro L hL
      rcases List.mem_append.mp hL with hL | hL
      · exact h3 L hL
      · rw [List.mem_singleton.mp hL]
        exact h4
    · intro pl hpl
      simp at hpl

/-- Appending a point only grows an open polyline. -/
theorem layerLenInv_appendCurrentPoint (s : PState) (p : Point3)
    (h : layerLenInv s) : layerLenInv (appendCurrentPoint s p) := by
  unfold appendCurrentPoint
  split
  · exact h
  · exact h

/-- A travel move only commits an open polyline when it has ≥ 2 points. -/
theorem layerLenInv_travelReset (s : PState) (p : Point3) (h : layerLenInv s) :
    layerLenInv (travelReset s p) := by
  obtain ⟨h1, h2, h3, h4⟩ := h
  unfold travelReset
  split
  · refine ⟨h1, ?_, h3, h4⟩
    intro pl hpl
    split at hpl
    · rcases List.mem_append.mp hpl with hm | hm
      · exact h2 pl hm
      · rw [List.mem_singleton.mp hm]
        omega
    · exact h2 pl hpl
  · refine ⟨h1, h2, h3, ?_⟩
    intro pl hpl
    split at hpl
    · rcases List.mem_append.mp hpl with hm | hm
      · exact h4 pl hm
      · rw [List.mem_singleton.mp hm]
        omega
    · exact h4 pl hpl

/-- Any motion command preserves the invariant. -/
theorem layerLenInv_motionApply (s : PState) (l : Line) (q : ℚ × ℚ × ℚ × ℚ)
    (h : layerLenInv s) : layerLenInv (motionApply s l q) := by
  have hext : layerLenInv (appendCurrentPoint
      (if q.2.2.1 ≠ s.last_extruded_z then closeLayer s else s) ⟨q.1, q.2.1, q.2.2.1⟩) := by
    refine layerLenInv_appendCurrentPoint _ _ ?_
    split
    · exact layerLenInv_closeLayer _ h
    · exact h
  have htrav : layerLenInv (travelReset s ⟨q.1, q.2.1, q.2.2.1⟩) :=
    layerLenInv_travelReset _ _ h
  unfold motionApply
  split
  · split <;> split
    · exact layerLenInv_of_eq _ _ rfl rfl rfl rfl hext
    · exact layerLenInv_of_eq _ _ rfl rfl rfl rfl htrav
    · exact layerLenInv_of_eq _ _ rfl rfl rfl rfl hext
    · exact layerLenInv_of_eq _ _ rfl rfl rfl rfl htrav
  · exact layerLenInv_of_eq _ _ rfl rfl rfl rfl htrav

/-- Every successful line step preserves the invariant. -/
theorem layerLenInv_stepLine (hot : ℚ) (s : PState) (raw : Line) (s1 : PState)
    (he : stepLine hot s raw = .ok s1) (h : layerLenInv s) : layerLenInv s1 := by
  have hstep : ∀ s2 : PState, layerLenInv s2 →
      stepLine.motionCheck hot s2 (stripComment raw) = .ok s1 → layerLenInv s1 := by
    intro s2 h2 he2
    unfold stepLine.motionCheck at he2
    by_cases hp : s2.printing = true
    · rw [if_pos hp] at he2
      by_cases hg : (stripComment raw).take 2 = codeG0 ∨ (stripComment raw).take 2 = codeG1
      · rw [if_pos hg] at he2
        unfold motionStep at he2
        cases hpp : parseParams hot s2.printcore
            (s2.current_x, s2.current_y, s2.current_z, s2.last_e)
            ((strSplit ' ' (stripComment raw)).drop 1) with
        | error e =>
          rw [hpp] at he2
          cases he2
        | ok q =>
          rw [hpp] at he2
          cases he2
          exact layerLenInv_motionApply _ _ _ h2
      · rw [if_neg hg] at he2
        cases he2
        exact h2
    · rw [if_neg hp] at he2
      cases he2
      exact h2
  by_cases hemp : stripComment raw = []
  · unfold stepLine at he
    rw [if_pos hemp] at he
    cases he
    exact h
  · unfold stepLine at he
    rw [if_neg hemp] at he
    by_cases hm : (stripComment raw).take 4 = markerM205
    · rw [if_pos hm] at he
      by_cases ht : (stripComment raw).take 2 = toolT0 ∨ (stripComment raw).take 2 = toolT1
      · rw [if_pos ht] at he
        refine hstep _ ?_ he
        exact layerLenInv_of_eq _ _ rfl rfl rfl rfl
          (layerLenInv_toolChange s (stripComment raw) h)
      · rw [if_neg ht] at he
        refine hstep _ ?_ he
        exact layerLenInv_of_eq _ _ rfl rfl rfl rfl h
    · rw [if_neg hm] at he
      by_cases ht : (stripComment raw).take 2 = toolT0 ∨ (stripComment raw).take 2 = toolT1
      · rw [if_pos ht] at he
        exact hstep _ (layerLenInv_toolChange s (stripComment raw) h) he
      · rw [if_neg ht] at he
        exact hstep _ h he

/-- The whole scan preserves the invariant. -/
theorem layerLenInv_runLines (hot : ℚ) (lines : List Line) (s s1 : PState)
    (he : runLines hot s lines = .ok s1) (h : layerLenInv s) : layerLenInv s1 := by
  induction lines generalizing s with
  | nil =>
    cases he
    exact h
  | cons l ls ih =>
    unfold runLines at he
    split at he
    · cases he
    · rename_i smid hstep
      exact ih smid he (layerLenInv_stepLine hot s l smid hstep h)

/-- Claim C7: for every input stream and hotend offset, every polyline
stored in every layer of both returned tracks has at least 2 points —
single-point polylines are never committed to a layer. -/
theorem c7_no_single_point_polylines (lines : List Line) (hot : ℚ)
    (res : List Layer × List Layer) (h : parse_gcode_file lines hot = .ok res) :
    (∀ L ∈ res.1, ∀ pl ∈ L, 2 ≤ pl.length) ∧
    (∀ L ∈ res.2, ∀ pl ∈ L, 2 ≤ pl.length) := by
  unfold parse_gcode_file at h
  split at h
  · cases h
  · rename_i s hrun
    cases h
    have hinv := layerLenInv_runLines hot lines initState s hrun layerLenInv_init
    constructor
    · intro L hL
      exact hinv.1 L (List.drop_subset 1 s.one_layers hL)
    · intro L hL
      exact hinv.2.2.1 L (List.drop_subset 1 s.two_layers hL)

/-- Claim C7 (witness): the theorem applied to a concrete stream whose
returned primary track holds one layer with one committed 2-point
polyline. -/
theorem c7_witness :
    parse_gcode_file ["M205".toList, "G1 X0 Y0 Z0.2 E1".toList,
        "G1 X9 Y9 Z0.2 E3".toList, "G0 X0 Y0 Z0.2".toList,
        "G1 X1 Y1 Z0.4 E4".toList] 0 =
      .ok ([[[⟨0, 0, 0.2⟩, ⟨9, 9, 0.2⟩]]], []) ∧
    2 ≤ ([⟨0, 0, 0.2⟩, ⟨9, 9, 0.2⟩] : Polyline).length := by
  have hp : parse_gcode_file ["M205".toList, "G1 X0 Y0 Z0.2 E1".toList,
      "G1 X9 Y9 Z0.2 E3".toList, "G0 X0 Y0 Z0.2".toList,
      "G1 X1 Y1 Z0.4 E4".toList] 0 =
      .ok ([[[⟨0, 0, 0.2⟩, ⟨9, 9, 0.2⟩]]], []) := by
    with_unfolding_all decide
  refine ⟨hp, ?_⟩
  exact (c7_no_single_point_polylines _ 0 _ hp).1 _ (List.mem_singleton.mpr rfl)
    _ (List.mem_singleton.mpr rfl)


/-- A malformed X/Y/Z/E operand anywhere in the token list makes the
operand loop fail, whatever comes before or after it. -/
theorem parseParams_error (hot : ℚ) (core : ℕ) (acc : ℚ × ℚ × ℚ × ℚ)
    (ps : List Line)
    (hbad : ∃ p ∈ ps, ∃ c rest, p = c :: rest ∧
      (c = 'X' ∨ c = 'Y' ∨ c = 'Z' ∨ c = 'E') ∧ parseFloat rest = none) :
    parseParams hot core acc ps = .error () := by
  induction ps generalizing acc with
  | nil =>
    obtain ⟨p, hp, _⟩ := hbad
    simp at hp
  | cons p ps ih =>
    obtain ⟨x, y, z, e⟩ := acc
    obtain ⟨p2, hp2, c, rest, hpc, hc, hpf⟩ := hbad
    rcases List.mem_cons.mp hp2 with hhead | htail
    · subst hhead
      subst hpc
      rcases hc with rfl | rfl | rfl | rfl
      · simp only [parseParams, if_pos rfl, hpf, if_true]
      · simp only [parseParams, if_neg (by decide : ¬('Y' = 'X')), if_pos rfl, hpf,
          if_true]
      · simp only [parseParams, if_neg (by decide : ¬('Z' = 'X')),
          if_neg (by decide : ¬('Z' = 'Y')), if_pos rfl, hpf, if_true]
      · simp only [parseParams, if_neg (by decide : ¬('E' = 'X')),
          if_neg (by decide : ¬('E' = 'Y')), if_neg (by decide : ¬('E' = 'Z')),
          if_pos rfl, hpf, if_true]
    · have hrest : ∃ p ∈ ps, ∃ c rest, p = c :: rest ∧
          (c = 'X' ∨ c = 'Y' ∨ c = 'Z' ∨ c = 'E') ∧ parseFloat rest = none :=
        ⟨p2, htail, c, rest, hpc, hc, hpf⟩
      match p with
      | [] =>
        simp only [parseParams]
        exact ih _ hrest
      | c2 :: rest2 =>
        by_cases hX : c2 = 'X'
        · subst hX
          simp only [parseParams, if_pos rfl, if_true]
          cases hpf2 : parseFloat rest2 with
          | none => rfl
          | some v => exact ih _ hrest
        · by_cases hY : c2 = 'Y'
          · subst hY
            simp only [parseParams, if_neg (by decide : ¬('Y' = 'X')), if_pos rfl,
              if_true]
            cases hpf2 : parseFloat rest2 with
            | none => rfl
            | some v => exact ih _ hrest
          · by_cases hZ : c2 = 'Z'
            · subst hZ
              simp only [parseParams, if_neg (by decide : ¬('Z' = 'X')),
                if_neg (by decide : ¬('Z' = 'Y')), if_pos rfl, if_true]
              cases hpf2 : parseFloat rest2 with
              | none => rfl
              | some v => exact ih _ hrest
            · by_cases hE : c2 = 'E'
              · subst hE
                simp only [parseParams, if_neg (by decide : ¬('E' = 'X')),
                  if_neg (by decide : ¬('E' = 'Y')), if_neg (by decide : ¬('E' = 'Z')),
                  if_pos rfl, if_true]
                cases hpf2 : parseFloat rest2 with
                | none => rfl
                | some v => exact ih _ hrest
              · simp only [parseParams, if_neg hX, if_neg hY, if_neg hZ, if_neg hE]
                exact ih _ hrest

/-- The scan over an appended stream is the scan of the first part bound
into the scan of the second. -/
theorem runLines_append (hot : ℚ) (s : PState) (l1 l2 : List Line) :
    runLines hot s (l1 ++ l2) =
      (runLines hot s l1).bind (fun s1 => runLines hot s1 l2) := by
  induction l1 generalizing s with
  | nil => rfl
  | cons l ls ih =>
    rw [List.cons_append, runLines.eq_2, runLines.eq_2]
    split
    · rfl
    · exact ih _

/-- A printing-state G0/G1 line whose operand loop fails aborts the step. -/
theorem stepLine_motion_error (hot : ℚ) (s : PState) (raw : Line)
    (hG : (stripComment raw).take 2 = codeG0 ∨ (stripComment raw).take 2 = codeG1)
    (hp : s.printing = true)
    (herr : parseParams hot s.printcore
      (s.current_x, s.current_y, s.current_z, s.last_e)
      ((strSplit ' ' (stripComment raw)).drop 1) = .error ()) :
    stepLine hot s raw = .error () := by
  have hne : stripComment raw ≠ [] := by
    intro hc
    rcases hG with hg | hg <;> rw [hc] at hg <;> cases hg
  have hnt : ¬((stripComment raw).take 2 = toolT0 ∨ (stripComment raw).take 2 = toolT1) := by
    intro hc
    rcases hG with hg | hg <;> rcases hc with hc | hc <;>
      (rw [hg] at hc; exact absurd hc (by decide))
  have hnm : ¬((stripComment raw).take 4 = markerM205) := by
    intro hc
    have h2 := congrArg (List.take 2) hc
    rw [List.take_take] at h2
    norm_num at h2
    rcases hG with hg | hg <;> rw [hg] at h2 <;> exact absurd h2 (by decide)
  unfold stepLine
  rw [if_neg hne, if_neg hnt, if_neg hnm]
  unfold stepLine.motionCheck
  rw [if_pos hp, if_pos hG]
  unfold motionStep
  rw [herr]

/-- Claim C9: (a) every line whose comment-stripped command code is not a
recognised one (T0/T1 tool change, M205 marker, G0/G1 motion) is silently
ignored, leaving the parser state unchanged; (b) a malformed X/Y/Z/E
operand on a motion line that is actually processed (printing already on)
makes the whole parse fail fatally, returning an error and no partial
result. -/
theorem c9_error_handling :
    (∀ (hot : ℚ) (s : PState) (raw : Line),
      ¬((stripComment raw).take 2 = toolT0 ∨ (stripComment raw).take 2 = toolT1 ∨
        (stripComment raw).take 2 = codeG0 ∨ (stripComment raw).take 2 = codeG1 ∨
        (stripComment raw).take 4 = markerM205) →
      stepLine hot s raw = .ok s) ∧
    (∀ (hot : ℚ) (pre post : List Line) (bad : Line) (s : PState),
      runLines hot initState pre = .ok s →
      s.printing = true →
      ((stripComment bad).take 2 = codeG0 ∨ (stripComment bad).take 2 = codeG1) →
      (∃ p ∈ (strSplit ' ' (stripComment bad)).drop 1, ∃ c rest, p = c :: rest ∧
        (c = 'X' ∨ c = 'Y' ∨ c = 'Z' ∨ c = 'E') ∧ parseFloat rest = none) →
      parse_gcode_file (pre ++ bad :: post) hot = .error ()) := by
  constructor
  · intro hot s raw hun
    push_neg at hun
    obtain ⟨h1, h2, h3, h4, h5⟩ := hun
    by_cases hemp : stripComment raw = []
    · unfold stepLine
      rw [if_pos hemp]
    · unfold stepLine
      rw [if_neg hemp]
      rw [if_neg (show ¬((stripComment raw).take 2 = toolT0 ∨
          (stripComment raw).take 2 = toolT1) by
        intro hc
        rcases hc with hc | hc
        exacts [h1 hc, h2 hc])]
      rw [if_neg h5]
      unfold stepLine.motionCheck
      by_cases hp : s.printing = true
      · rw [if_pos hp]
        rw [if_neg (show ¬((stripComment raw).take 2 = codeG0 ∨
            (stripComment raw).take 2 = codeG1) by
          intro hc
          rcases hc with hc | hc
          exacts [h3 hc, h4 hc])]
      · rw [if_neg hp]
  · intro hot pre post bad s hpre hp hG hbad
    unfold parse_gcode_file
    rw [runLines_append, hpre,
      show (Except.ok s).bind (fun s1 => runLines hot s1 (bad :: post)) =
        runLines hot s (bad :: post) from rfl,
      runLines.eq_2,
      stepLine_motion_error hot s bad hG hp
        (parseParams_error hot s.printcore
          (s.current_x, s.current_y, s.current_z, s.last_e)
          ((strSplit ' ' (stripComment bad)).drop 1) hbad)]

/-- Claim C9 (witness): an unrecognised line leaves the initial state
unchanged, and a parse containing a malformed `G1 Xabc` after the M205
marker fails as a whole. -/
theorem c9_witness :
    stepLine 0 initState ("hello".toList) = .ok initState ∧
    parse_gcode_file ["M205".toList, "G1 Xabc".toList] 0 = .error () := by
  constructor
  · exact c9_error_handling.1 0 initState _ (by decide)
  · refine c9_error_handling.2 0 ["M205".toList] [] ("G1 Xabc".toList)
      { initState with printing := true } ?_ rfl ?_ ?_
    · with_unfolding_all decide
    · decide
    · exact ⟨"Xabc".toList, by decide, 'X', "abc".toList, rfl, Or.inl rfl, by decide⟩

/-- Claim C10: when an extruding move changes the layer (its z differs from
the last extruded z) while the active core's open polyline already holds
points, the parser — for whichever extruder is active — appends exactly the
previously committed polylines as the closed layer: the open polyline's
accumulated points go neither into the closed layer nor into the new one,
the current-layer accumulator is reset, and the new layer's first polyline
starts with only the triggering move's point. -/
theorem c10_layer_change_discards_open_polyline
    (hot : ℚ) (s : PState) (raw : Line) (nx ny nz ne : ℚ)
    (hG : (stripComment raw).take 2 = codeG0 ∨ (stripComment raw).take 2 = codeG1)
    (hp : s.printing = true)
    (hparse : parseParams hot s.printcore
      (s.current_x, s.current_y, s.current_z, s.last_e)
      ((strSplit ' ' (stripComment raw)).drop 1) = .ok (nx, ny, nz, ne))
    (hE : ((stripComment raw).contains 'E' &&
      ((stripComment raw).contains 'X' || (stripComment raw).contains 'Y' ||
       (stripComment raw).contains 'Z')) = true)
    (hec : 0 < (if s.e_change ≤ 0 then s.e_change + (ne - s.last_e) else ne - s.last_e))
    (hz : nz ≠ s.last_extruded_z) :
    (s.printcore = 0 → s.one_new_line ≠ [] →
      (stepLine hot s raw).map (fun t => (t.one_layers, t.one_lines, t.one_new_line)) =
        .ok (s.one_layers ++ [s.one_lines], ([] : Layer), [(⟨nx, ny, nz⟩ : Point3)])) ∧
    (s.printcore = 1 → s.two_new_line ≠ [] →
      (stepLine hot s raw).map (fun t => (t.two_layers, t.two_lines, t.two_new_line)) =
        .ok (s.two_layers ++ [s.two_lines], ([] : Layer), [(⟨nx, ny, nz⟩ : Point3)])) := by
  have hne : stripComment raw ≠ [] := by
    intro hc
    rcases hG with hg | hg <;> rw [hc] at hg <;> cases hg
  have hnt : ¬((stripComment raw).take 2 = toolT0 ∨ (stripComment raw).take 2 = toolT1) := by
    intro hc
    rcases hG with hg | hg <;> rcases hc with hc | hc <;>
      (rw [hg] at hc; exact absurd hc (by decide))
  have hnm : ¬((stripComment raw).take 4 = markerM205) := by
    intro hc
    have h2 := congrArg (List.take 2) hc
    rw [List.take_take] at h2
    norm_num at h2
    rcases hG with hg | hg <;> rw [hg] at h2 <;> exact absurd h2 (by decide)
  constructor
  · intro hcore _hopen
    unfold stepLine
    rw [if_neg hne, if_neg hnt, if_neg hnm]
    unfold stepLine.motionCheck
    rw [if_pos hp, if_pos hG]
    unfold motionStep
    rw [hparse]
    show (Except.ok (motionApply s (stripComment raw) (nx, ny, nz, ne))).map _ = _
    unfold motionApply
    rw [if_pos hE]
    dsimp only
    rw [if_pos hec, if_pos hz]
    unfold closeLayer
    rw [if_pos hcore]
    unfold appendCurrentPoint
    dsimp only
    rw [if_pos hcore]
    rfl
  · intro hcore _hopen
    have hc0 : ¬(s.printcore = 0) := by
      rw [hcore]
      decide
    unfold stepLine
    rw [if_neg hne, if_neg hnt, if_neg hnm]
    unfold stepLine.motionCheck
    rw [if_pos hp, if_pos hG]
    unfold motionStep
    rw [hparse]
    show (Except.ok (motionApply s (stripComment raw) (nx, ny, nz, ne))).map _ = _
    unfold motionApply
    rw [if_pos hE]
    dsimp only
    rw [if_pos hec, if_pos hz]
    unfold closeLayer
    rw [if_neg hc0]
    unfold appendCurrentPoint
    dsimp only
    rw [if_neg hc0]
    rfl

/-- Claim C10 (witness): the theorem applied at two concrete states with a
nonempty open polyline and a concrete z-changing extruding move, one with
the primary extruder active and one with the secondary extruder active. -/
theorem c10_witness :
    (stepLine 0
        { initState with
          printing := true,
          one_new_line := [pt0],
          one_lines := [[pt0, pt0]] }
        ("G1 X1 Y2 Z3 E5".toList)).map
      (fun t => (t.one_layers, t.one_lines, t.one_new_line)) =
      .ok ([[[pt0, pt0]]], ([] : Layer), [(⟨1, 2, 3⟩ : Point3)]) ∧
    (stepLine 0
        { initState with
          printing := true,
          printcore := 1,
          two_new_line := [pt0],
          two_lines := [[pt0, pt0]] }
        ("G1 X1 Y2 Z3 E5".toList)).map
      (fun t => (t.two_layers, t.two_lines, t.two_new_line)) =
      .ok ([[[pt0, pt0]]], ([] : Layer), [(⟨1, 2, 3⟩ : Point3)]) := by
  have h0 := (c10_layer_change_discards_open_polyline 0
    { initState with
      printing := true,
      one_new_line := [pt0],
      one_lines := [[pt0, pt0]] }
    ("G1 X1 Y2 Z3 E5".toList) 1 2 3 5
    (by decide) rfl
    (by with_unfolding_all decide)
    (by decide)
    (by with_unfolding_all decide)
    (by with_unfolding_all decide)).1 rfl (by decide)
  have h1 := (c10_layer_change_discards_open_polyline 0
    { initState with
      printing := true,
      printcore := 1,
      two_new_line := [pt0],
      two_lines := [[pt0, pt0]] }
    ("G1 X1 Y2 Z3 E5".toList) 1 2 3 5
    (by decide) rfl
    (by with_unfolding_all decide)
    (by decide)
    (by with_unfolding_all decide)
    (by with_unfolding_all decide)).2 rfl (by decide)
  constructor
  · simpa using h0
  · simpa using h1
